import Mathlib

/-!
Shallow embedding of the DilliDash marketplace cart state machine
(`frontend/src/context/CartContext.jsx`, `cartReducer`) and the derived
cart total (`frontend/src/components/CartView.jsx`, `totalPrice`),
with proofs of the specified invariants and transition properties.

Modelling conventions:
* A JavaScript number is `JNum`: `NaN`, `+Infinity`, `-Infinity`, or an
  exact value carried as a rational.  Payload numbers are modelled as
  arbitrary rationals — a superset of the binary64 values a JavaScript
  caller can actually supply — and every arithmetic result (`+`, `*`)
  is rounded into the binary64 grid by `roundD` (round to nearest, ties
  to even, 53-bit precision, overflow to ±Infinity), so on double-valued
  inputs the model computes exactly what IEEE-754 double arithmetic does:
  in particular `2^53 + 1` rounds back to `2^53` and `2^1023 + 2^1023`
  overflows to `+Infinity`.  `Math.floor` and the comparisons used by the
  reducer are exact on doubles and are modelled exactly.
* A payload field is a `JVal`.  The reducer's validation only tests
  `typeof v === 'string'` / `typeof v === 'number'` (plus `isNaN` and
  truthiness), so every non-string non-number value behaves identically
  and is collapsed into `other`.  Note that `typeof Infinity === 'number'`
  and `isNaN(Infinity)` is false, so the validation guards accept
  `Infinity` where they accept finite numbers.
* The reducer returns `Except String CartState`: `.error` models the
  `throw new Error(...)` of the `default` branch, `.ok` a normal return.
-/

namespace DilliDash

/-- A JavaScript number as observed by the cart logic: `NaN`, `+Infinity`,
`-Infinity`, or an exact (finite) value. -/
inductive JNum where
  | nan : JNum
  | inf : JNum
  | ninf : JNum
  | num : ℚ → JNum
  deriving DecidableEq, Repr

/-- Fuel-driven base-2 logarithm on naturals: `log2fuel fuel n = ⌊log₂ n⌋`
whenever `n ≤ fuel` and `n ≥ 1`. -/
def log2fuel : Nat → Nat → Nat
  | 0, _ => 0
  | fuel + 1, n => if n < 2 then 0 else log2fuel fuel (n / 2) + 1

/-- `⌊log₂ n⌋` for `n ≥ 1` (0 at 0). -/
def natLog2 (n : Nat) : Nat := log2fuel n n

/-- The binade of a positive rational: the unique `e` with
`2^e ≤ q < 2^(e+1)`. -/
def ratLog2 (q : ℚ) : ℤ :=
  let e0 : ℤ := (natLog2 q.num.toNat : ℤ) - (natLog2 q.den : ℤ)
  if q < (2 : ℚ) ^ e0 then e0 - 1 else e0

/-- Round a positive rational onto the binary64 grid: round to nearest at
53 significant bits (granularity `2^(e-52)` in the binade `e`, subnormal
granularity `2^(-1074)` below `2^(-1022)`), ties to even, and overflow to
`+Infinity` when the rounded value reaches `2^1024`. -/
def roundPosD (q : ℚ) : JNum :=
  let e : ℤ := max (ratLog2 q) (-1022)
  let g : ℚ := (2 : ℚ) ^ (e - 52)
  let k : ℤ := ⌊q / g⌋
  let r : ℤ :=
    if q / g - (k : ℚ) < 1 / 2 then k
    else if 1 / 2 < q / g - (k : ℚ) then k + 1
    else if k % 2 = 0 then k else k + 1
  if (2 : ℚ) ^ (1024 : ℤ) ≤ (r : ℚ) * g then .inf else .num ((r : ℚ) * g)

/-- Round any rational to the nearest binary64 value (the result of an
IEEE-754 double operation whose exact value is `q`). -/
def roundD (q : ℚ) : JNum :=
  if 0 < q then roundPosD q
  else if q < 0 then
    match roundPosD (-q) with
    | .inf => .ninf
    | .num v => .num (-v)
    | j => j
  else .num 0

/-- JavaScript `+` on numbers: `NaN` is absorbing, opposite infinities give
`NaN`, an infinity absorbs finite values, and finite values add exactly and
are rounded to the nearest double. -/
def JNum.add : JNum → JNum → JNum
  | .nan, _ => .nan
  | _, .nan => .nan
  | .inf, .ninf => .nan
  | .ninf, .inf => .nan
  | .inf, _ => .inf
  | _, .inf => .inf
  | .ninf, _ => .ninf
  | _, .ninf => .ninf
  | .num a, .num b => roundD (a + b)

/-- JavaScript `*` on numbers: `NaN` is absorbing, `Infinity * 0 = NaN`,
infinities multiply by sign, and finite values multiply exactly and are
rounded to the nearest double. -/
def JNum.mul : JNum → JNum → JNum
  | .nan, _ => .nan
  | _, .nan => .nan
  | .inf, .inf => .inf
  | .inf, .ninf => .ninf
  | .ninf, .inf => .ninf
  | .ninf, .ninf => .inf
  | .inf, .num b => if b = 0 then .nan else if 0 < b then .inf else .ninf
  | .num a, .inf => if a = 0 then .nan else if 0 < a then .inf else .ninf
  | .ninf, .num b => if b = 0 then .nan else if 0 < b then .ninf else .inf
  | .num a, .ninf => if a = 0 then .nan else if 0 < a then .ninf else .inf
  | .num a, .num b => roundD (a * b)

/-- JavaScript `Math.floor`: exact on finite doubles, fixes `±Infinity`
and `NaN`. -/
def JNum.floor : JNum → JNum
  | .nan => .nan
  | .inf => .inf
  | .ninf => .ninf
  | .num q => .num ((⌊q⌋ : ℤ) : ℚ)

/-- The JavaScript comparison `x <= 0` on a number (`NaN` compares false;
`Infinity <= 0` is false, `-Infinity <= 0` is true). -/
def JNum.le0 : JNum → Bool
  | .nan => false
  | .inf => false
  | .ninf => true
  | .num q => decide (q ≤ 0)

/-- A JavaScript value appearing in an action payload field.  Validation in
the reducer only tests `typeof v === 'string'` / `typeof v === 'number'`
(plus `isNaN` and truthiness), so every non-string non-number value behaves
identically and is collapsed into `other`. -/
inductive JVal where
  | vstr : String → JVal
  | vnum : JNum → JVal
  | other : JVal
  deriving DecidableEq, Repr

/-- The raw `item` object of an `ADD_ITEM` payload, before validation:
each field may be missing or of the wrong type. -/
structure RawItem where
  productId : JVal
  name : JVal
  price : JVal
  deriving DecidableEq, Repr

/-- A validated item persisted in the cart (`CartItem` typedef):
`productId`/`name` passed the string checks; `price` and `quantity` are
stored as JavaScript numbers. -/
structure CartItem where
  productId : String
  name : String
  price : JNum
  quantity : JNum
  deriving DecidableEq, Repr

/-- The cart state (`CartState` typedef): current store id (null when the
cart is empty) and the ordered item list. -/
structure CartState where
  storeId : Option String
  items : List CartItem
  deriving DecidableEq, Repr

/-- `initialCartState = { storeId: null, items: [] }`. -/
def initialCartState : CartState := { storeId := none, items := [] }

/-- The four defined action tags plus `unknown` for any other tag reaching
the reducer's `default` branch.  A missing/non-object `item` in the
`ADD_ITEM` payload (which always fails validation in the source, whether by
`!item` or by the subsequent `typeof` checks) is modelled as `none`. -/
inductive Action where
  | addItem : Option RawItem → JVal → Action
  | removeItem : JVal → Action
  | updateQuantity : JVal → JVal → Action
  | clearCart : Action
  | unknown : String → Action
  deriving DecidableEq, Repr

/-- `typeof v === 'string' && v` — a non-empty string, else rejected. -/
def asValidStr : JVal → Option String
  | .vstr s => if s = "" then none else some s
  | _ => none

/-- `typeof v === 'number' && !isNaN(v)` — any non-`NaN` number (finite or
infinite), else rejected. -/
def asValidNum : JVal → Option JNum
  | .vnum .nan => none
  | .vnum n => some n
  | _ => none

/-- The `ADD_ITEM` price check: a number, not `NaN`, and not `< 0` —
`+Infinity` passes (`Infinity < 0` is false), `-Infinity` is rejected. -/
def asValidPrice : JVal → Option JNum
  | .vnum (.num q) => if q < 0 then none else some (.num q)
  | .vnum .inf => some .inf
  | _ => none

/-- The whole `ADD_ITEM` validation guard: all four fields must pass,
otherwise the payload is rejected. -/
def validateAdd (item : RawItem) (sid : JVal) : Option (String × String × JNum × String) :=
  match asValidStr item.productId, asValidStr item.name,
        asValidPrice item.price, asValidStr sid with
  | some pid, some nm, some pr, some st => some (pid, nm, pr, st)
  | _, _, _, _ => none

/-- `items.findIndex(c => c.productId === pid)` followed by the map that
replaces the entry at that index with `{...c, quantity: c.quantity + 1}`:
bump the quantity of the first matching item, leave everything else as is. -/
def incFirstQty (pid : String) : List CartItem → List CartItem
  | [] => []
  | c :: rest =>
    if c.productId = pid then { c with quantity := c.quantity.add (.num 1) } :: rest
    else c :: incFirstQty pid rest

/-- `findIndex` + map replacing the entry at that index with
`{...c, quantity: integerQuantity}` (the `UPDATE_QUANTITY` positive path). -/
def setFirstQty (pid : String) (j : JNum) : List CartItem → List CartItem
  | [] => []
  | c :: rest =>
    if c.productId = pid then { c with quantity := j } :: rest
    else c :: setFirstQty pid j rest

/-- The `ADD_ITEM` same-store / empty-cart path: `newStoreId` is already
resolved (`state.storeId ?? storeId`); merge into an existing entry or
append a fresh one with quantity 1. -/
def addSameStore (state : CartState) (newStoreId pid nm : String) (pr : JNum) : CartState :=
  if state.items.any (fun c => c.productId == pid) then
    { storeId := some newStoreId, items := incFirstQty pid state.items }
  else
    { storeId := some newStoreId,
      items := state.items ++ [{ productId := pid, name := nm, price := pr, quantity := .num 1 }] }

/-- The validated `ADD_ITEM` body: store-switch replacement when the cart
belongs to a different store, otherwise the same-store path. -/
def addItemValid (state : CartState) (pid nm : String) (pr : JNum) (storeId : String) : CartState :=
  match state.storeId with
  | some cur =>
    if cur ≠ storeId then
      { storeId := some storeId,
        items := [{ productId := pid, name := nm, price := pr, quantity := .num 1 }] }
    else addSameStore state cur pid nm pr
  | none => addSameStore state storeId pid nm pr

/-- The shared removal body of `REMOVE_ITEM` and of the non-positive branch
of `UPDATE_QUANTITY`: filter the id out; if the cart became empty reset the
whole state, else keep `storeId` and any other fields. -/
def removeById (state : CartState) (pid : String) : CartState :=
  let newItems := state.items.filter (fun c => c.productId != pid)
  if newItems = [] then initialCartState
  else { state with items := newItems }

/-- The validated `UPDATE_QUANTITY` body: `Math.floor` the quantity; when
`integerQuantity <= 0` it is a removal, otherwise replace the first matching
entry's quantity, and if the id is absent return the state unchanged.
(`Math.floor(Infinity) = Infinity` and `Infinity <= 0` is false, so an
`Infinity` quantity is persisted as is.) -/
def updateQuantityValid (state : CartState) (pid : String) (q : JNum) : CartState :=
  let integerQuantity := q.floor
  if integerQuantity.le0 then removeById state pid
  else if state.items.any (fun c => c.productId == pid) then
    { state with items := setFirstQty pid integerQuantity state.items }
  else state

/-- The cart reducer (`cartReducer` in `CartContext.jsx`).  Every defined
action returns `.ok` (invalid payloads return the state unchanged, after a
`console.warn` which has no effect on state); an unknown action tag throws,
modelled as `.error`. -/
def cartReducer (state : CartState) (action : Action) : Except String CartState :=
  match action with
  | .addItem rawItem sid =>
    match rawItem with
    | none => .ok state
    | some item =>
      match validateAdd item sid with
      | none => .ok state
      | some (pid, nm, pr, storeId) => .ok (addItemValid state pid nm pr storeId)
  | .removeItem pidv =>
    match asValidStr pidv with
    | none => .ok state
    | some pid => .ok (removeById state pid)
  | .updateQuantity pidv qv =>
    match asValidStr pidv, asValidNum qv with
    | some pid, some q => .ok (updateQuantityValid state pid q)
    | _, _ => .ok state
  | .clearCart => .ok initialCartState
  | .unknown tag => .error ("[CartContext] Unhandled action type: " ++ tag)

/-- Dispatch a finite sequence of actions in order, propagating a thrown
error (an error aborts the run, as a thrown exception would). -/
def runActions (s : CartState) : List Action → Except String CartState
  | [] => .ok s
  | a :: rest =>
    match cartReducer s a with
    | .ok s' => runActions s' rest
    | .error e => .error e

/-- The per-item contribution to the cart total in `CartView.jsx`:
`price` is used only if it is a non-`NaN` number (else 0; `Infinity`
passes), `quantity` only if `Number.isInteger` holds — a finite integer
(else 0; `Number.isInteger(Infinity)` is false) — multiplied with
JavaScript `*`. -/
def itemContribution (item : CartItem) : JNum :=
  JNum.mul
    (match item.price with
     | .nan => .num 0
     | p => p)
    (match item.quantity with
     | .num q => if q.den = 1 then .num q else .num 0
     | _ => .num 0)

/-- `totalPrice` from `CartView.jsx`: `items.reduce((sum, item) => sum +
price * quantity, 0)` with the validity guards on each field and JavaScript
`+` accumulating. -/
def totalPrice (items : List CartItem) : JNum :=
  items.foldl (fun sum item => sum.add (itemContribution item)) (.num 0)

/-- A stored quantity is well formed: an integer-valued number ≥ 1, or
`+Infinity` (persisted by `UPDATE_QUANTITY` with an `Infinity` payload). -/
def qtyOK (j : JNum) : Prop :=
  (∃ n : ℤ, j = .num (n : ℚ) ∧ 1 ≤ n) ∨ j = .inf

/-- A stored price is well formed: a number ≥ 0 — finite, or `+Infinity`
(accepted by the `ADD_ITEM` price guard since `Infinity < 0` is false). -/
def priceOK (j : JNum) : Prop :=
  (∃ q : ℚ, j = .num q ∧ 0 ≤ q) ∨ j = .inf

/-- A persisted cart item is well formed: non-empty product id, valid price,
valid quantity. -/
def itemOK (c : CartItem) : Prop :=
  c.productId ≠ "" ∧ priceOK c.price ∧ qtyOK c.quantity

/-- The cart data-model invariant: `storeId` is null iff the cart is empty,
every item is well formed, and product ids are unique. -/
def cartWF (s : CartState) : Prop :=
  (s.storeId = none ↔ s.items = []) ∧
  (∀ c ∈ s.items, itemOK c) ∧
  (s.items.map CartItem.productId).Nodup

/-- A number is non-negative-or-`+Infinity` (never `NaN`, never negative,
never `-Infinity`). -/
def nonnegOrInf (j : JNum) : Prop :=
  (∃ v : ℚ, j = .num v ∧ 0 ≤ v) ∨ j = .inf

/-- A fully well-typed `ADD_ITEM` item payload with a finite price. -/
def rawOf (pid nm : String) (pr : ℚ) : RawItem :=
  { productId := .vstr pid, name := .vstr nm, price := .vnum (.num pr) }

/-- A malformed `ADD_ITEM` payload: the `item` object is missing (or not an
object), or one of the four validated fields fails its check. -/
def addMalformed : Option RawItem → JVal → Prop
  | none, _ => True
  | some item, sid =>
      asValidStr item.productId = none ∨ asValidStr item.name = none ∨
      asValidPrice item.price = none ∨ asValidStr sid = none

/-- Concrete fixture: a validated milk item as stored by the reducer. -/
def milkItem : CartItem :=
  { productId := "milk", name := "Milk", price := .num 30, quantity := .num 1 }

/-- Concrete fixture: a one-item cart from store `storeA`. -/
def stateA : CartState := { storeId := some "storeA", items := [milkItem] }

theorem log2fuel_spec (fuel : ℕ) : ∀ n : ℕ, 1 ≤ n → n ≤ fuel →
    2 ^ log2fuel fuel n ≤ n ∧ n < 2 ^ (log2fuel fuel n + 1) := by
  induction fuel with
  | zero => intro n h1 h2; omega
  | succ f ih =>
    intro n h1 h2
    simp only [log2fuel]
    by_cases hn : n < 2
    · rw [if_pos hn]
      constructor
      · simpa using h1
      · simpa using hn
    · rw [if_neg hn]
      have hd1 : 1 ≤ n / 2 := by omega
      have hd2 : n / 2 ≤ f := by omega
      obtain ⟨ha, hb⟩ := ih (n / 2) hd1 hd2
      constructor
      · have h2p : 2 ^ (log2fuel f (n / 2) + 1) = 2 * 2 ^ log2fuel f (n / 2) := by ring
        rw [h2p]
        omega
      · have h2p : 2 ^ (log2fuel f (n / 2) + 1 + 1) = 2 * 2 ^ (log2fuel f (n / 2) + 1) := by ring
        rw [h2p]
        omega

theorem natLog2_spec (n : ℕ) (h : 1 ≤ n) :
    2 ^ natLog2 n ≤ n ∧ n < 2 ^ (natLog2 n + 1) :=
  log2fuel_spec n n h le_rfl

theorem ratLog2_spec (q : ℚ) (h : 0 < q) :
    (2 : ℚ) ^ ratLog2 q ≤ q ∧ q < (2 : ℚ) ^ (ratLog2 q + 1) := by
  have hnum : 0 < q.num := Rat.num_pos.mpr h
  have hden : 1 ≤ q.den := q.den_pos
  have ha1 : 1 ≤ q.num.toNat := by omega
  obtain ⟨hla, hla'⟩ := natLog2_spec q.num.toNat ha1
  obtain ⟨hlb, hlb'⟩ := natLog2_spec q.den hden
  set la := natLog2 q.num.toNat with hsla
  set lb := natLog2 q.den with hslb
  have hIa : ((q.num.toNat : ℕ) : ℚ) = (q.num : ℚ) := by
    exact_mod_cast Int.toNat_of_nonneg hnum.le
  have hq : ((q.num.toNat : ℕ) : ℚ) / ((q.den : ℚ)) = q := by
    rw [hIa]
    exact Rat.num_div_den q
  have hbpos : (0 : ℚ) < (q.den : ℚ) := by exact_mod_cast hden
  have A1 : (2 : ℚ) ^ (la : ℤ) ≤ ((q.num.toNat : ℕ) : ℚ) := by
    rw [zpow_natCast]
    exact_mod_cast hla
  have A2 : ((q.num.toNat : ℕ) : ℚ) < (2 : ℚ) ^ ((la : ℤ) + 1) := by
    rw [show ((la : ℤ) + 1) = ((la + 1 : ℕ) : ℤ) by push_cast; ring, zpow_natCast]
    exact_mod_cast hla'
  have B1 : (2 : ℚ) ^ (lb : ℤ) ≤ (q.den : ℚ) := by
    rw [zpow_natCast]
    exact_mod_cast hlb
  have B2 : (q.den : ℚ) < (2 : ℚ) ^ ((lb : ℤ) + 1) := by
    rw [show ((lb : ℤ) + 1) = ((lb + 1 : ℕ) : ℤ) by push_cast; ring, zpow_natCast]
    exact_mod_cast hlb'
  have hupper : q < (2 : ℚ) ^ ((la : ℤ) - lb + 1) := by
    rw [← hq, div_lt_iff₀ hbpos]
    have h2 : (2 : ℚ) ^ ((la : ℤ) - lb + 1) * (2 : ℚ) ^ (lb : ℤ) = (2 : ℚ) ^ ((la : ℤ) + 1) := by
      rw [← zpow_add₀ (by norm_num : (2 : ℚ) ≠ 0)]
      congr 1
      ring
    calc ((q.num.toNat : ℕ) : ℚ) < (2 : ℚ) ^ ((la : ℤ) + 1) := A2
      _ = (2 : ℚ) ^ ((la : ℤ) - lb + 1) * (2 : ℚ) ^ (lb : ℤ) := h2.symm
      _ ≤ (2 : ℚ) ^ ((la : ℤ) - lb + 1) * (q.den : ℚ) := by
          exact mul_le_mul_of_nonneg_left B1 (le_of_lt (zpow_pos (by norm_num) _))
  have hlower : (2 : ℚ) ^ ((la : ℤ) - lb - 1) < q := by
    rw [← hq, lt_div_iff₀ hbpos]
    have h2 : (2 : ℚ) ^ ((la : ℤ) - lb - 1) * (2 : ℚ) ^ ((lb : ℤ) + 1) = (2 : ℚ) ^ (la : ℤ) := by
      rw [← zpow_add₀ (by norm_num : (2 : ℚ) ≠ 0)]
      congr 1
      ring
    calc (2 : ℚ) ^ ((la : ℤ) - lb - 1) * (q.den : ℚ)
        < (2 : ℚ) ^ ((la : ℤ) - lb - 1) * (2 : ℚ) ^ ((lb : ℤ) + 1) := by
          exact mul_lt_mul_of_pos_left B2 (zpow_pos (by norm_num) _)
      _ = (2 : ℚ) ^ (la : ℤ) := h2
      _ ≤ ((q.num.toNat : ℕ) : ℚ) := A1
  simp only [ratLog2, ← hsla, ← hslb]
  by_cases hc : q < (2 : ℚ) ^ ((la : ℤ) - lb)
  · rw [if_pos hc]
    refine ⟨le_of_lt hlower, ?_⟩
    rw [show (la : ℤ) - lb - 1 + 1 = (la : ℤ) - lb by ring]
    exact hc
  · rw [if_neg hc]
    exact ⟨not_lt.mp hc, hupper⟩

theorem roundD_of_pos (q : ℚ) (h : 0 < q) : roundD q = roundPosD q := by
  simp [roundD, h]

theorem roundD_zero : roundD 0 = .num 0 := by
  simp [roundD]

theorem roundPosD_exact (q : ℚ) (m : ℤ)
    (hm : q = (m : ℚ) * (2 : ℚ) ^ (max (ratLog2 q) (-1022) - 52))
    (hlt : q < (2 : ℚ) ^ (1024 : ℤ)) :
    roundPosD q = .num q := by
  simp only [roundPosD]
  set g : ℚ := (2 : ℚ) ^ (max (ratLog2 q) (-1022) - 52) with hg
  have hgpos : (0 : ℚ) < g := zpow_pos (by norm_num) _
  have hdiv : q / g = (m : ℚ) := by
    rw [hm, mul_div_assoc, div_self (ne_of_gt hgpos), mul_one]
  rw [hdiv, Int.floor_intCast, sub_self]
  rw [if_pos (by norm_num : (0 : ℚ) < 1 / 2)]
  rw [← hm]
  rw [if_neg (not_le.mpr hlt)]

theorem roundPosD_overflow (q : ℚ) (m : ℤ)
    (hm : q = (m : ℚ) * (2 : ℚ) ^ (max (ratLog2 q) (-1022) - 52))
    (hge : (2 : ℚ) ^ (1024 : ℤ) ≤ q) :
    roundPosD q = .inf := by
  simp only [roundPosD]
  set g : ℚ := (2 : ℚ) ^ (max (ratLog2 q) (-1022) - 52) with hg
  have hgpos : (0 : ℚ) < g := zpow_pos (by norm_num) _
  have hdiv : q / g = (m : ℚ) := by
    rw [hm, mul_div_assoc, div_self (ne_of_gt hgpos), mul_one]
  rw [hdiv, Int.floor_intCast, sub_self]
  rw [if_pos (by norm_num : (0 : ℚ) < 1 / 2)]
  rw [← hm]
  rw [if_pos hge]

theorem roundPosD_cases (q : ℚ) :
    roundPosD q = .inf ∨ ∃ r : ℤ,
      roundPosD q = .num ((r : ℚ) * (2 : ℚ) ^ (max (ratLog2 q) (-1022) - 52)) ∧
      (r = ⌊q / (2 : ℚ) ^ (max (ratLog2 q) (-1022) - 52)⌋ ∨
       r = ⌊q / (2 : ℚ) ^ (max (ratLog2 q) (-1022) - 52)⌋ + 1) := by
  simp only [roundPosD]
  repeat' split
  all_goals first
    | exact Or.inl rfl
    | exact Or.inr ⟨_, rfl, Or.inl rfl⟩
    | exact Or.inr ⟨_, rfl, Or.inr rfl⟩

theorem int_on_grid (x : ℤ) (e : ℤ) (he : e ≤ 52) :
    (x : ℚ) = ((x * 2 ^ (52 - e).toNat : ℤ) : ℚ) * (2 : ℚ) ^ (e - 52) := by
  push_cast
  rw [mul_assoc]
  rw [show ((2 : ℚ) ^ (52 - e).toNat) = (2 : ℚ) ^ ((52 - e : ℤ)) by
    rw [← zpow_natCast]
    congr 1
    omega]
  rw [← zpow_add₀ (by norm_num : (2 : ℚ) ≠ 0)]
  rw [show (52 - e) + (e - 52) = 0 by ring]
  simp

theorem roundD_int_small (x : ℤ) (h1 : 1 ≤ x) (h2 : x ≤ 2 ^ 53) :
    roundD (x : ℚ) = .num (x : ℚ) := by
  have hx : (0 : ℚ) < (x : ℚ) := by exact_mod_cast h1
  rw [roundD_of_pos _ hx]
  have hlt2 : (x : ℚ) < (2 : ℚ) ^ (1024 : ℤ) := by
    calc (x : ℚ) ≤ ((2 ^ 53 : ℤ) : ℚ) := by exact_mod_cast h2
    _ < (2 : ℚ) ^ (1024 : ℤ) := by norm_num
  by_cases hce : max (ratLog2 (x : ℚ)) (-1022) ≤ 52
  · exact roundPosD_exact _ _ (int_on_grid x _ hce) hlt2
  · push_neg at hce
    have hru : ratLog2 (x : ℚ) = max (ratLog2 (x : ℚ)) (-1022) := by
      rcases le_or_lt (ratLog2 (x : ℚ)) (-1022) with hr | hr
      · rw [max_eq_right hr] at hce
        omega
      · rw [max_eq_left hr.le]
    obtain ⟨hlo, hhi⟩ := ratLog2_spec (x : ℚ) hx
    have hxle : (x : ℚ) ≤ (2 : ℚ) ^ (53 : ℤ) := by
      calc (x : ℚ) ≤ ((2 ^ 53 : ℤ) : ℚ) := by exact_mod_cast h2
      _ = (2 : ℚ) ^ (53 : ℤ) := by norm_num
    have he53 : ratLog2 (x : ℚ) ≤ 53 := by
      by_contra hgt
      push_neg at hgt
      have hc1 : (2 : ℚ) ^ (54 : ℤ) ≤ (2 : ℚ) ^ ratLog2 (x : ℚ) :=
        zpow_le_zpow_right₀ (by norm_num) (by omega)
      have hc2 : (2 : ℚ) ^ (54 : ℤ) ≤ (2 : ℚ) ^ (53 : ℤ) := le_trans hc1 (le_trans hlo hxle)
      have := (zpow_le_zpow_iff_right₀ (by norm_num : (1 : ℚ) < 2)).mp hc2
      omega
    have he : max (ratLog2 (x : ℚ)) (-1022) = 53 := by omega
    -- here x is pinned to 2^53 itself
    have hx53 : (2 : ℚ) ^ (53 : ℤ) ≤ (x : ℚ) := by
      calc (2 : ℚ) ^ (53 : ℤ) = (2 : ℚ) ^ ratLog2 (x : ℚ) := by rw [hru, he]
      _ ≤ (x : ℚ) := hlo
    have hxeq : x = 2 ^ 53 := by
      have hge : ((2 ^ 53 : ℤ) : ℚ) ≤ (x : ℚ) := by
        calc ((2 ^ 53 : ℤ) : ℚ) = (2 : ℚ) ^ (53 : ℤ) := by norm_num
        _ ≤ (x : ℚ) := hx53
      have : (2 ^ 53 : ℤ) ≤ x := by exact_mod_cast hge
      omega
    refine roundPosD_exact _ (2 ^ 52) ?_ hlt2
    rw [he, hxeq]
    push_cast
    norm_num

theorem roundD_int_pos (x : ℤ) (h1 : 1 ≤ x) :
    roundD (x : ℚ) = .inf ∨ ∃ m : ℤ, roundD (x : ℚ) = .num (m : ℚ) ∧ 1 ≤ m := by
  have hx : (0 : ℚ) < (x : ℚ) := by exact_mod_cast h1
  rw [roundD_of_pos _ hx]
  by_cases hce : max (ratLog2 (x : ℚ)) (-1022) ≤ 52
  · rcases lt_or_le (x : ℚ) ((2 : ℚ) ^ (1024 : ℤ)) with hlt | hge
    · right
      exact ⟨x, roundPosD_exact _ _ (int_on_grid x _ hce) hlt, h1⟩
    · left
      exact roundPosD_overflow _ _ (int_on_grid x _ hce) hge
  · push_neg at hce
    have hru : ratLog2 (x : ℚ) = max (ratLog2 (x : ℚ)) (-1022) := by
      rcases le_or_lt (ratLog2 (x : ℚ)) (-1022) with hr | hr
      · rw [max_eq_right hr] at hce
        omega
      · rw [max_eq_left hr.le]
    obtain ⟨hlo, hhi⟩ := ratLog2_spec (x : ℚ) hx
    rcases roundPosD_cases (x : ℚ) with hinf | ⟨r, hr, hrk⟩
    · exact Or.inl hinf
    · right
      set e : ℤ := max (ratLog2 (x : ℚ)) (-1022) with hse
      have hgq : (2 : ℚ) ^ (e - 52) ≤ (x : ℚ) := by
        calc (2 : ℚ) ^ (e - 52) ≤ (2 : ℚ) ^ e := zpow_le_zpow_right₀ (by norm_num) (by omega)
        _ = (2 : ℚ) ^ ratLog2 (x : ℚ) := by rw [hru]
        _ ≤ (x : ℚ) := hlo
      have hgpos : (0 : ℚ) < (2 : ℚ) ^ (e - 52) := zpow_pos (by norm_num) _
      have hk1 : 1 ≤ ⌊(x : ℚ) / (2 : ℚ) ^ (e - 52)⌋ := by
        rw [Int.le_floor]
        rw [le_div_iff₀ hgpos]
        simpa using hgq
      have hr1 : 1 ≤ r := by rcases hrk with rfl | rfl <;> omega
      -- the granularity is an integer power of two here
      have hge53 : 53 ≤ e := by omega
      have hgint : ((2 : ℚ) ^ (e - 52)) = (((2 : ℤ) ^ (e - 52).toNat : ℤ) : ℚ) := by
        push_cast
        rw [← zpow_natCast]
        congr 1
        omega
      refine ⟨r * 2 ^ (e - 52).toNat, ?_, ?_⟩
      · rw [hr]
        congr 1
        rw [hgint]
        push_cast
        ring
      · have h0 : (0 : ℤ) < 2 ^ (e - 52).toNat := by positivity
        have h2p : (1 : ℤ) ≤ 2 ^ (e - 52).toNat := by omega
        calc (1 : ℤ) = 1 * 1 := by ring
        _ ≤ r * 2 ^ (e - 52).toNat := mul_le_mul hr1 h2p (by norm_num) (by omega)

theorem roundD_nonneg (q : ℚ) (h : 0 ≤ q) : nonnegOrInf (roundD q) := by
  rcases eq_or_lt_of_le h with hq | hq
  · rw [← hq, roundD_zero]
    exact Or.inl ⟨0, rfl, le_refl 0⟩
  · rw [roundD_of_pos _ hq]
    rcases roundPosD_cases q with hinf | ⟨r, hr, hrk⟩
    · exact Or.inr hinf
    · left
      refine ⟨_, hr, ?_⟩
      have hgpos : (0 : ℚ) < (2 : ℚ) ^ (max (ratLog2 q) (-1022) - 52) :=
        zpow_pos (by norm_num) _
      have hk0 : 0 ≤ ⌊q / (2 : ℚ) ^ (max (ratLog2 q) (-1022) - 52)⌋ :=
        Int.floor_nonneg.mpr (div_nonneg hq.le hgpos.le)
      have hr0 : (0 : ℤ) ≤ r := by rcases hrk with rfl | rfl <;> omega
      exact mul_nonneg (by exact_mod_cast hr0) hgpos.le

theorem two_pow_le_max_binade (k : ℕ) :
    max (ratLog2 ((2 : ℚ) ^ k)) (-1022) ≤ (k : ℤ) := by
  have hpos : (0 : ℚ) < (2 : ℚ) ^ k := by positivity
  rcases le_or_lt (ratLog2 ((2 : ℚ) ^ k)) (-1022) with hr | hr
  · rw [max_eq_right hr]
    omega
  · rw [max_eq_left hr.le]
    have hlo := (ratLog2_spec _ hpos).1
    nth_rewrite 2 [show ((2 : ℚ) ^ k) = (2 : ℚ) ^ ((k : ℤ)) from (zpow_natCast _ _).symm] at hlo
    exact (zpow_le_zpow_iff_right₀ (by norm_num : (1 : ℚ) < 2)).mp hlo

theorem two_pow_grid (k : ℕ) :
    (2 : ℚ) ^ k =
      ((2 ^ ((k : ℤ) - max (ratLog2 ((2 : ℚ) ^ k)) (-1022) + 52).toNat : ℤ) : ℚ) *
        (2 : ℚ) ^ (max (ratLog2 ((2 : ℚ) ^ k)) (-1022) - 52) := by
  have hele := two_pow_le_max_binade k
  have hmax : (-1022 : ℤ) ≤ max (ratLog2 ((2 : ℚ) ^ k)) (-1022) := le_max_right _ _
  set e := max (ratLog2 ((2 : ℚ) ^ k)) (-1022) with hse
  push_cast
  rw [show ((2 : ℚ) ^ ((k : ℤ) - e + 52).toNat) = (2 : ℚ) ^ (((k : ℤ) - e + 52)) by
    rw [← zpow_natCast]
    congr 1
    omega]
  rw [← zpow_add₀ (by norm_num : (2 : ℚ) ≠ 0)]
  rw [show ((k : ℤ) - e + 52) + (e - 52) = (k : ℤ) by ring]
  rw [zpow_natCast]

theorem roundD_two_pow (k : ℕ) (hk : k ≤ 1023) :
    roundD ((2 : ℚ) ^ k) = .num ((2 : ℚ) ^ k) := by
  have hpos : (0 : ℚ) < (2 : ℚ) ^ k := by positivity
  rw [roundD_of_pos _ hpos]
  refine roundPosD_exact _ _ (two_pow_grid k) ?_
  rw [show ((2 : ℚ) ^ k) = (2 : ℚ) ^ ((k : ℤ)) from (zpow_natCast _ _).symm]
  exact (zpow_lt_zpow_iff_right₀ (by norm_num : (1 : ℚ) < 2)).mpr (by omega)

theorem roundD_two_pow_1024 : roundD ((2 : ℚ) ^ (1024 : ℕ)) = .inf := by
  have hpos : (0 : ℚ) < (2 : ℚ) ^ (1024 : ℕ) := by positivity
  rw [roundD_of_pos _ hpos]
  refine roundPosD_overflow _ _ (two_pow_grid 1024) ?_
  rw [show ((2 : ℚ) ^ (1024 : ℕ)) = (2 : ℚ) ^ (((1024 : ℕ) : ℤ)) from (zpow_natCast _ _).symm]
  exact zpow_le_zpow_right₀ (by norm_num) (by omega)

theorem ratLog2_two_pow_53_add_one :
    ratLog2 ((2 : ℚ) ^ (53 : ℕ) + 1) = 53 := by
  have hpos : (0 : ℚ) < (2 : ℚ) ^ (53 : ℕ) + 1 := by positivity
  obtain ⟨hlo, hhi⟩ := ratLog2_spec ((2 : ℚ) ^ (53 : ℕ) + 1) hpos
  have h1 : (2 : ℚ) ^ (53 : ℤ) ≤ (2 : ℚ) ^ (53 : ℕ) + 1 := by norm_num
  have h2 : (2 : ℚ) ^ (53 : ℕ) + 1 < (2 : ℚ) ^ (54 : ℤ) := by norm_num
  have hA : ratLog2 ((2 : ℚ) ^ (53 : ℕ) + 1) < 54 := by
    by_contra hc
    push_neg at hc
    have := zpow_le_zpow_right₀ (by norm_num : (1 : ℚ) ≤ 2) hc
    linarith
  have hB : 53 < ratLog2 ((2 : ℚ) ^ (53 : ℕ) + 1) + 1 := by
    by_contra hc
    push_neg at hc
    have := zpow_le_zpow_right₀ (by norm_num : (1 : ℚ) ≤ 2) hc
    linarith
  omega

theorem roundD_tie_two_pow_53 :
    roundD ((2 : ℚ) ^ (53 : ℕ) + 1) = .num ((2 : ℚ) ^ (53 : ℕ)) := by
  have hpos : (0 : ℚ) < (2 : ℚ) ^ (53 : ℕ) + 1 := by positivity
  rw [roundD_of_pos _ hpos]
  simp only [roundPosD, ratLog2_two_pow_53_add_one]
  rw [show (max (53 : ℤ) (-1022)) = 53 by norm_num]
  rw [show ((53 : ℤ) - 52) = 1 by norm_num, zpow_one]
  have hfloor : ⌊((2 : ℚ) ^ (53 : ℕ) + 1) / 2⌋ = 2 ^ 52 := by
    rw [Int.floor_eq_iff]
    constructor
    · norm_num
    · norm_num
  rw [hfloor]
  rw [if_neg (by push_cast; norm_num)]
  rw [if_neg (by push_cast; norm_num)]
  rw [if_pos (by decide : ((2 : ℤ) ^ 52) % 2 = 0)]
  rw [if_neg (by push_cast; norm_num)]
  congr 1
  push_cast
  norm_num

theorem asValidStr_eq_some (v : JVal) (s : String) (h : asValidStr v = some s) :
    v = .vstr s ∧ s ≠ "" := by
  cases v with
  | vstr t =>
    simp only [asValidStr] at h
    split at h
    · exact absurd h (by simp)
    · obtain rfl : t = s := by simpa using h
      exact ⟨rfl, by assumption⟩
  | vnum n => simp [asValidStr] at h
  | other => simp [asValidStr] at h

theorem asValidStr_of_ne (s : String) (h : s ≠ "") : asValidStr (.vstr s) = some s := by
  simp [asValidStr, h]

theorem asValidPrice_eq_some (v : JVal) (j : JNum) (h : asValidPrice v = some j) :
    v = .vnum j ∧ priceOK j := by
  cases v with
  | vstr t => simp [asValidPrice] at h
  | other => simp [asValidPrice] at h
  | vnum n =>
    cases n with
    | nan => simp [asValidPrice] at h
    | ninf => simp [asValidPrice] at h
    | inf =>
      obtain rfl : JNum.inf = j := by simpa [asValidPrice] using h
      exact ⟨rfl, Or.inr rfl⟩
    | num r =>
      simp only [asValidPrice] at h
      split at h
      · exact absurd h (by simp)
      · obtain rfl : JNum.num r = j := by simpa using h
        exact ⟨rfl, Or.inl ⟨r, rfl, le_of_not_lt (by assumption)⟩⟩

theorem asValidPrice_of_nonneg (q : ℚ) (h : 0 ≤ q) :
    asValidPrice (.vnum (.num q)) = some (.num q) := by
  simp [asValidPrice, not_lt.mpr h]

theorem asValidNum_eq_some (v : JVal) (j : JNum) (h : asValidNum v = some j) :
    v = .vnum j ∧ j ≠ .nan := by
  cases v with
  | vstr t => simp [asValidNum] at h
  | other => simp [asValidNum] at h
  | vnum n =>
    cases n with
    | nan => simp [asValidNum] at h
    | inf =>
      obtain rfl : JNum.inf = j := by simpa [asValidNum] using h
      exact ⟨rfl, by simp⟩
    | ninf =>
      obtain rfl : JNum.ninf = j := by simpa [asValidNum] using h
      exact ⟨rfl, by simp⟩
    | num r =>
      obtain rfl : JNum.num r = j := by simpa [asValidNum] using h
      exact ⟨rfl, by simp⟩

theorem validateAdd_eq_some (item : RawItem) (sid : JVal)
    (pid nm st : String) (pr : JNum)
    (h : validateAdd item sid = some (pid, nm, pr, st)) :
    item.productId = .vstr pid ∧ pid ≠ "" ∧
    item.name = .vstr nm ∧ nm ≠ "" ∧
    item.price = .vnum pr ∧ priceOK pr ∧
    sid = .vstr st ∧ st ≠ "" := by
  unfold validateAdd at h
  rcases h1 : asValidStr item.productId with _ | pid' <;> rw [h1] at h
  · simp at h
  rcases h2 : asValidStr item.name with _ | nm' <;> rw [h2] at h
  · simp at h
  rcases h3 : asValidPrice item.price with _ | pr' <;> rw [h3] at h
  · simp at h
  rcases h4 : asValidStr sid with _ | st' <;> rw [h4] at h
  · simp at h
  simp only [Option.some.injEq, Prod.mk.injEq] at h
  obtain ⟨rfl, rfl, rfl, rfl⟩ := h
  obtain ⟨e1, n1⟩ := asValidStr_eq_some _ _ h1
  obtain ⟨e2, n2⟩ := asValidStr_eq_some _ _ h2
  obtain ⟨e3, n3⟩ := asValidPrice_eq_some _ _ h3
  obtain ⟨e4, n4⟩ := asValidStr_eq_some _ _ h4
  exact ⟨e1, n1, e2, n2, e3, n3, e4, n4⟩

theorem validateAdd_rawOf (pid nm st : String) (pr : ℚ)
    (hpid : pid ≠ "") (hnm : nm ≠ "") (hpr : 0 ≤ pr) (hst : st ≠ "") :
    validateAdd (rawOf pid nm pr) (.vstr st) = some (pid, nm, .num pr, st) := by
  unfold validateAdd rawOf
  rw [asValidStr_of_ne pid hpid, asValidStr_of_ne nm hnm,
      asValidPrice_of_nonneg pr hpr, asValidStr_of_ne st hst]

theorem validateAdd_eq_none (item : RawItem) (sid : JVal)
    (h : asValidStr item.productId = none ∨ asValidStr item.name = none ∨
         asValidPrice item.price = none ∨ asValidStr sid = none) :
    validateAdd item sid = none := by
  rcases h1 : asValidStr item.productId with _ | a <;>
    rcases h2 : asValidStr item.name with _ | b <;>
      rcases h3 : asValidPrice item.price with _ | c <;>
        rcases h4 : asValidStr sid with _ | d <;>
          simp_all [validateAdd]

theorem incFirstQty_map_productId (pid : String) (l : List CartItem) :
    (incFirstQty pid l).map CartItem.productId = l.map CartItem.productId := by
  induction l with
  | nil => rfl
  | cons c rest ih =>
    by_cases hc : c.productId = pid <;> simp [incFirstQty, hc, ih]

theorem setFirstQty_map_productId (pid : String) (j : JNum) (l : List CartItem) :
    (setFirstQty pid j l).map CartItem.productId = l.map CartItem.productId := by
  induction l with
  | nil => rfl
  | cons c rest ih =>
    by_cases hc : c.productId = pid <;> simp [setFirstQty, hc, ih]

theorem incFirstQty_ne_nil (pid : String) (l : List CartItem) (h : l ≠ []) :
    incFirstQty pid l ≠ [] := by
  intro hc
  have := incFirstQty_map_productId pid l
  rw [hc] at this
  exact h (by simpa using this.symm)

theorem setFirstQty_ne_nil (pid : String) (j : JNum) (l : List CartItem) (h : l ≠ []) :
    setFirstQty pid j l ≠ [] := by
  intro hc
  have := setFirstQty_map_productId pid j l
  rw [hc] at this
  exact h (by simpa using this.symm)

theorem mem_incFirstQty (pid : String) (l : List CartItem) (c' : CartItem)
    (h : c' ∈ incFirstQty pid l) :
    c' ∈ l ∨ ∃ c ∈ l, c' = { c with quantity := c.quantity.add (.num 1) } := by
  induction l with
  | nil => simp [incFirstQty] at h
  | cons c rest ih =>
    by_cases hc : c.productId = pid
    · simp only [incFirstQty, if_pos hc, List.mem_cons] at h
      rcases h with h | h
      · exact Or.inr ⟨c, by simp, h⟩
      · exact Or.inl (List.mem_cons_of_mem _ h)
    · simp only [incFirstQty, if_neg hc, List.mem_cons] at h
      rcases h with h | h
      · exact Or.inl (by simp [h])
      · rcases ih h with h' | ⟨d, hd, hd'⟩
        · exact Or.inl (List.mem_cons_of_mem _ h')
        · exact Or.inr ⟨d, List.mem_cons_of_mem _ hd, hd'⟩

theorem mem_setFirstQty (pid : String) (j : JNum) (l : List CartItem) (c' : CartItem)
    (h : c' ∈ setFirstQty pid j l) :
    c' ∈ l ∨ ∃ c ∈ l, c' = { c with quantity := j } := by
  induction l with
  | nil => simp [setFirstQty] at h
  | cons c rest ih =>
    by_cases hc : c.productId = pid
    · simp only [setFirstQty, if_pos hc, List.mem_cons] at h
      rcases h with h | h
      · exact Or.inr ⟨c, by simp, h⟩
      · exact Or.inl (List.mem_cons_of_mem _ h)
    · simp only [setFirstQty, if_neg hc, List.mem_cons] at h
      rcases h with h | h
      · exact Or.inl (by simp [h])
      · rcases ih h with h' | ⟨d, hd, hd'⟩
        · exact Or.inl (List.mem_cons_of_mem _ h')
        · exact Or.inr ⟨d, List.mem_cons_of_mem _ hd, hd'⟩

theorem incFirstQty_decompose (pid : String) (pre post : List CartItem) (old : CartItem)
    (hpre : ∀ c ∈ pre, c.productId ≠ pid) (hold : old.productId = pid) :
    incFirstQty pid (pre ++ old :: post) =
      pre ++ { old with quantity := old.quantity.add (.num 1) } :: post := by
  induction pre with
  | nil => simp [incFirstQty, hold]
  | cons c rest ih =>
    have hc : c.productId ≠ pid := hpre c (by simp)
    simp only [List.cons_append, incFirstQty, if_neg hc, List.append_eq]
    rw [ih (fun d hd => hpre d (List.mem_cons_of_mem _ hd))]

theorem any_pid_of_mem (pid : String) (l : List CartItem) (c : CartItem)
    (hc : c ∈ l) (hpid : c.productId = pid) :
    l.any (fun d => d.productId == pid) = true := by
  simp only [List.any_eq_true, beq_iff_eq]
  exact ⟨c, hc, hpid⟩

theorem any_pid_of_not_mem (pid : String) (l : List CartItem)
    (h : ∀ c ∈ l, c.productId ≠ pid) :
    l.any (fun d => d.productId == pid) = false := by
  simp only [List.any_eq_false, beq_iff_eq]
  exact h

theorem itemOK_bump (c : CartItem) (h : itemOK c) :
    itemOK { c with quantity := c.quantity.add (.num 1) } := by
  obtain ⟨hpid, hpr, hq⟩ := h
  refine ⟨hpid, hpr, ?_⟩
  show qtyOK (c.quantity.add (.num 1))
  rcases hq with ⟨n, hn, hn1⟩ | hinf
  · rw [hn]
    simp only [JNum.add]
    rw [show ((n : ℚ) + 1) = (((n + 1 : ℤ)) : ℚ) by push_cast; ring]
    rcases roundD_int_pos (n + 1) (by omega) with h' | ⟨m, hm, hm1⟩
    · exact Or.inr h'
    · exact Or.inl ⟨m, hm, hm1⟩
  · rw [hinf]
    exact Or.inr rfl

theorem itemOK_setQty (c : CartItem) (j : JNum) (hj : qtyOK j) (h : itemOK c) :
    itemOK { c with quantity := j } :=
  ⟨h.1, h.2.1, hj⟩

theorem cartWF_initial : cartWF initialCartState := by
  refine ⟨by simp [initialCartState], by simp [initialCartState], by simp [initialCartState]⟩

theorem cartWF_removeById (s : CartState) (pid : String) (hs : cartWF s) :
    cartWF (removeById s pid) := by
  obtain ⟨hiff, hitems, hnodup⟩ := hs
  simp only [removeById]
  by_cases hnil : s.items.filter (fun c => c.productId != pid) = []
  · rw [if_pos hnil]
    exact cartWF_initial
  · rw [if_neg hnil]
    refine ⟨?_, ?_, ?_⟩
    · constructor
      · intro h0
        exact absurd (by simp [hiff.mp h0]) hnil
      · intro h
        exact absurd h hnil
    · intro c hc
      exact hitems c (List.mem_of_mem_filter hc)
    · exact List.Nodup.sublist ((List.filter_sublist _).map CartItem.productId) hnodup

theorem cartWF_addSameStore (s : CartState) (nsid pid nm : String) (pr : JNum)
    (hpid : pid ≠ "") (hpr : priceOK pr) (hs : cartWF s) :
    cartWF (addSameStore s nsid pid nm pr) := by
  obtain ⟨hiff, hitems, hnodup⟩ := hs
  simp only [addSameStore]
  by_cases hany : s.items.any (fun c => c.productId == pid) = true
  · rw [if_pos hany]
    have hne : s.items ≠ [] := by
      intro h0
      rw [h0] at hany
      simp at hany
    refine ⟨?_, ?_, ?_⟩
    · simp only [Option.some_ne_none _, false_iff]
      exact incFirstQty_ne_nil pid s.items hne
    · intro c hc
      rcases mem_incFirstQty pid s.items c hc with h' | ⟨d, hd, rfl⟩
      · exact hitems c h'
      · exact itemOK_bump d (hitems d hd)
    · rw [incFirstQty_map_productId]
      exact hnodup
  · rw [if_neg hany]
    have habs : ∀ c ∈ s.items, c.productId ≠ pid := by
      intro c hc
      have := List.any_eq_false.mp (Bool.eq_false_iff.mpr hany) c hc
      simpa using this
    refine ⟨by simp, ?_, ?_⟩
    · intro c hc
      rcases List.mem_append.mp hc with h' | h'
      · exact hitems c h'
      · have : c = { productId := pid, name := nm, price := pr, quantity := .num 1 } := by
          simpa using h'
        subst this
        exact ⟨hpid, hpr, Or.inl ⟨1, by norm_num, le_refl 1⟩⟩
    · rw [List.map_append, List.nodup_append]
      refine ⟨hnodup, by simp, ?_⟩
      intro x hx hx'
      simp only [List.map_cons, List.map_nil, List.mem_singleton] at hx'
      subst hx'
      obtain ⟨c, hc, hcx⟩ := List.mem_map.mp hx
      exact habs c hc hcx

theorem cartWF_addItemValid (s : CartState) (pid nm : String) (pr : JNum) (st : String)
    (hpid : pid ≠ "") (hpr : priceOK pr) (hs : cartWF s) :
    cartWF (addItemValid s pid nm pr st) := by
  simp only [addItemValid]
  rcases hsid : s.storeId with _ | cur
  · simp only [hsid]
    exact cartWF_addSameStore s st pid nm pr hpid hpr hs
  · simp only [hsid]
    by_cases hne : cur ≠ st
    · rw [if_pos hne]
      refine ⟨by simp, ?_, by simp⟩
      intro c hc
      simp only [List.mem_singleton] at hc
      subst hc
      exact ⟨hpid, hpr, Or.inl ⟨1, by norm_num, le_refl 1⟩⟩
    · rw [if_neg hne]
      exact cartWF_addSameStore s cur pid nm pr hpid hpr hs

theorem cartWF_updateQuantityValid (s : CartState) (pid : String) (q : JNum)
    (hq : q ≠ .nan) (hs : cartWF s) : cartWF (updateQuantityValid s pid q) := by
  simp only [updateQuantityValid]
  by_cases hle : (JNum.floor q).le0 = true
  · rw [if_pos hle]
    exact cartWF_removeById s pid hs
  · rw [if_neg hle]
    obtain ⟨hiff, hitems, hnodup⟩ := hs
    by_cases hany : s.items.any (fun c => c.productId == pid) = true
    · rw [if_pos hany]
      have hne : s.items ≠ [] := by
        intro h0
        rw [h0] at hany
        simp at hany
      have hqty : qtyOK (JNum.floor q) := by
        cases q with
        | nan => exact absurd rfl hq
        | inf => exact Or.inr rfl
        | ninf => exact absurd rfl hle
        | num r =>
          left
          refine ⟨⌊r⌋, rfl, ?_⟩
          simp only [JNum.floor, JNum.le0] at hle
          have h1 : ¬ ((⌊r⌋ : ℚ) ≤ 0) := by simpa using hle
          have h2 : (0 : ℚ) < (⌊r⌋ : ℚ) := not_le.mp h1
          have h3 : 0 < ⌊r⌋ := by exact_mod_cast h2
          omega
      refine ⟨?_, ?_, ?_⟩
      · constructor
        · intro h0
          exact absurd (hiff.mp h0) hne
        · intro h0
          exact absurd h0 (setFirstQty_ne_nil pid _ s.items hne)
      · intro c hc
        rcases mem_setFirstQty pid _ s.items c hc with h' | ⟨d, hd, rfl⟩
        · exact hitems c h'
        · exact itemOK_setQty d _ hqty (hitems d hd)
      · rw [setFirstQty_map_productId]
        exact hnodup
    · rw [if_neg hany]
      exact ⟨hiff, hitems, hnodup⟩

theorem cartWF_step (s s' : CartState) (a : Action)
    (hs : cartWF s) (h : cartReducer s a = .ok s') : cartWF s' := by
  cases a with
  | addItem rawItem sid =>
    cases rawItem with
    | none =>
      simp only [cartReducer, Except.ok.injEq] at h
      exact h ▸ hs
    | some item =>
      rcases hva : validateAdd item sid with _ | ⟨pid, nm, pr, st⟩
      · simp only [cartReducer, hva, Except.ok.injEq] at h
        exact h ▸ hs
      · simp only [cartReducer, hva, Except.ok.injEq] at h
        obtain ⟨_, hpid, _, _, _, hpr, _, _⟩ := validateAdd_eq_some item sid pid nm st pr hva
        exact h ▸ cartWF_addItemValid s pid nm pr st hpid hpr hs
  | removeItem pidv =>
    rcases hv : asValidStr pidv with _ | pid
    · simp only [cartReducer, hv, Except.ok.injEq] at h
      exact h ▸ hs
    · simp only [cartReducer, hv, Except.ok.injEq] at h
      exact h ▸ cartWF_removeById s pid hs
  | updateQuantity pidv qv =>
    rcases hv : asValidStr pidv with _ | pid
    · rcases hq : asValidNum qv with _ | q <;>
        simp only [cartReducer, hv, hq, Except.ok.injEq] at h <;>
        exact h ▸ hs
    · rcases hq : asValidNum qv with _ | q
      · simp only [cartReducer, hv, hq, Except.ok.injEq] at h
        exact h ▸ hs
      · simp only [cartReducer, hv, hq, Except.ok.injEq] at h
        obtain ⟨-, hnn⟩ := asValidNum_eq_some qv q hq
        exact h ▸ cartWF_updateQuantityValid s pid q hnn hs
  | clearCart =>
    simp only [cartReducer, Except.ok.injEq] at h
    exact h ▸ cartWF_initial
  | unknown tag =>
    simp [cartReducer] at h

theorem cartWF_runActions (acts : List Action) (s0 s : CartState)
    (h0 : cartWF s0) (h : runActions s0 acts = .ok s) : cartWF s := by
  induction acts generalizing s0 with
  | nil =>
    simp only [runActions, Except.ok.injEq] at h
    exact h ▸ h0
  | cons a rest ih =>
    simp only [runActions] at h
    rcases hr : cartReducer s0 a with e | s1 <;> rw [hr] at h
    · simp at h
    · exact ih s1 (cartWF_step s0 s1 a h0 hr) h

theorem addSameStore_merge (s : CartState) (nsid pid nm : String) (pr : JNum)
    (pre post : List CartItem) (old : CartItem)
    (hitems : s.items = pre ++ old :: post) (hold : old.productId = pid)
    (hpre : ∀ c ∈ pre, c.productId ≠ pid) :
    addSameStore s nsid pid nm pr =
      { storeId := some nsid,
        items := pre ++ { old with quantity := old.quantity.add (.num 1) } :: post } := by
  have hany : s.items.any (fun c => c.productId == pid) = true :=
    any_pid_of_mem pid s.items old (by simp [hitems]) hold
  simp only [addSameStore, hany, if_true]
  rw [hitems, incFirstQty_decompose pid pre post old hpre hold]

theorem addSameStore_append (s : CartState) (nsid pid nm : String) (pr : JNum)
    (habs : ∀ c ∈ s.items, c.productId ≠ pid) :
    addSameStore s nsid pid nm pr =
      { storeId := some nsid,
        items := s.items ++
          [{ productId := pid, name := nm, price := pr, quantity := .num 1 }] } := by
  have hany := any_pid_of_not_mem pid s.items habs
  simp [addSameStore, hany]

theorem addItemValid_same (s : CartState) (pid nm : String) (pr : JNum) (sid : String)
    (hsame : s.storeId = none ∨ s.storeId = some sid) :
    addItemValid s pid nm pr sid = addSameStore s (s.storeId.getD sid) pid nm pr := by
  rcases hsame with h | h
  · simp [addItemValid, h]
  · simp [addItemValid, h]

theorem cartReducer_addItem_valid (s : CartState) (pid nm sid : String) (pr : ℚ)
    (hpid : pid ≠ "") (hnm : nm ≠ "") (hpr : 0 ≤ pr) (hsid : sid ≠ "") :
    cartReducer s (.addItem (some (rawOf pid nm pr)) (.vstr sid)) =
      .ok (addItemValid s pid nm (.num pr) sid) := by
  simp only [cartReducer, validateAdd_rawOf pid nm sid pr hpid hnm hpr hsid]

theorem runActions_replicate_add (pid nm sid : String) (pr : ℚ)
    (hpid : pid ≠ "") (hnm : nm ≠ "") (hpr : 0 ≤ pr) (hsid : sid ≠ "")
    (N : ℕ) : ∀ k : ℤ, 1 ≤ k → k + N ≤ 2 ^ 53 →
    runActions
        { storeId := some sid,
          items := [{ productId := pid, name := nm, price := .num pr,
                      quantity := .num (k : ℚ) }] }
        (List.replicate N (.addItem (some (rawOf pid nm pr)) (.vstr sid))) =
      .ok { storeId := some sid,
            items := [{ productId := pid, name := nm, price := .num pr,
                        quantity := .num ((k + N : ℤ) : ℚ) }] } := by
  induction N with
  | zero =>
    intro k hk1 hk2
    simp [runActions]
  | succ n ih =>
    intro k hk1 hk2
    rw [List.replicate_succ]
    have hstep := cartReducer_addItem_valid
      { storeId := some sid,
        items := [{ productId := pid, name := nm, price := .num pr,
                    quantity := .num (k : ℚ) }] }
      pid nm sid pr hpid hnm hpr hsid
    rw [addItemValid_same _ _ _ _ _ (Or.inr rfl)] at hstep
    rw [addSameStore_merge _ _ _ _ _ [] []
      { productId := pid, name := nm, price := .num pr, quantity := .num (k : ℚ) }
      rfl rfl (by simp)] at hstep
    have hadd : (JNum.num (k : ℚ)).add (.num 1) = .num ((k + 1 : ℤ) : ℚ) := by
      simp only [JNum.add]
      rw [show ((k : ℚ) + 1) = (((k + 1 : ℤ)) : ℚ) by push_cast; ring]
      exact roundD_int_small (k + 1) (by omega) (by omega)
    rw [hadd] at hstep
    simp only [runActions, hstep, Option.getD_some, List.nil_append]
    rw [ih (k + 1) (by omega) (by omega)]
    congr 4
    push_cast
    ring_nf

theorem add_nonnegOrInf (a b : JNum) (ha : nonnegOrInf a) (hb : nonnegOrInf b) :
    nonnegOrInf (a.add b) := by
  rcases ha with ⟨v, rfl, hv⟩ | rfl <;> rcases hb with ⟨w, rfl, hw⟩ | rfl
  · simp only [JNum.add]
    exact roundD_nonneg _ (add_nonneg hv hw)
  · exact Or.inr rfl
  · exact Or.inr rfl
  · exact Or.inr rfl

theorem itemContribution_nonnegOrInf (c : CartItem)
    (hp : ∃ p : ℚ, c.price = .num p ∧ 0 ≤ p) (hq : qtyOK c.quantity) :
    nonnegOrInf (itemContribution c) := by
  obtain ⟨p, hp1, hp0⟩ := hp
  rcases hq with ⟨n, hn, hn1⟩ | hinf
  · simp only [itemContribution, hp1, hn]
    rw [if_pos (Rat.den_intCast n)]
    simp only [JNum.mul]
    refine roundD_nonneg _ (mul_nonneg hp0 ?_)
    exact_mod_cast (by omega : (0 : ℤ) ≤ n)
  · simp only [itemContribution, hp1, hinf]
    simp only [JNum.mul]
    exact roundD_nonneg _ (by simp)

theorem totalPrice_nonnegOrInf_aux (l : List CartItem) :
    ∀ acc : JNum, nonnegOrInf acc → (∀ c ∈ l, nonnegOrInf (itemContribution c)) →
      nonnegOrInf (l.foldl (fun sum item => sum.add (itemContribution item)) acc) := by
  induction l with
  | nil =>
    intro acc ha _
    simpa using ha
  | cons c rest ih =>
    intro acc ha hall
    simp only [List.foldl_cons]
    exact ih _ (add_nonnegOrInf _ _ ha (hall c (by simp)))
      (fun d hd => hall d (List.mem_cons_of_mem _ hd))

theorem cartWF_stateA : cartWF stateA := by
  refine ⟨by simp [stateA], ?_, by simp [stateA]⟩
  intro c hc
  simp only [stateA, List.mem_singleton] at hc
  subst hc
  exact ⟨by simp [milkItem], Or.inl ⟨30, rfl, by norm_num⟩,
         Or.inl ⟨1, by norm_num [milkItem], le_refl 1⟩⟩

/-- C1 (counterexample): the claim's invariant fails with arbitrary payloads:
`UPDATE_QUANTITY` with quantity `Infinity` passes the reducer's
isNaN-only validation (`typeof Infinity === 'number'`, `isNaN(Infinity)` is
false), `Math.floor(Infinity) = Infinity` is not `≤ 0`, and the item is
persisted with `quantity = Infinity` — which is not an integer ≥ 1. -/
theorem C1_infinite_quantity_counterexample :
    runActions initialCartState
        [.addItem (some (rawOf "milk" "Milk" 30)) (.vstr "storeA"),
         .updateQuantity (.vstr "milk") (.vnum .inf)] =
      .ok { storeId := some "storeA",
            items := [{ productId := "milk", name := "Milk", price := .num 30,
                        quantity := .inf }] } ∧
    ¬ ∃ n : ℤ, (JNum.inf = .num (n : ℚ) ∧ 1 ≤ n) := by
  constructor
  · simp +decide [runActions, cartReducer, validateAdd, asValidStr, asValidPrice,
      asValidNum, addItemValid, addSameStore, updateQuantityValid, JNum.floor,
      JNum.le0, setFirstQty, rawOf, initialCartState]
  · rintro ⟨n, hn, -⟩
    exact absurd hn (by simp)

/-- C1 (amended): starting from the initial empty state, after every finite
sequence of defined cart actions with arbitrary payloads: `storeId` is null
iff `items` is empty; every item's quantity is an integer ≥ 1 or
`+Infinity` (the latter persisted by an `Infinity` quantity payload that
passes the isNaN-only validation); every item's price is a number ≥ 0 or
`+Infinity`; and product ids are pairwise distinct. -/
theorem C1_amended_cart_invariant (acts : List Action) (s : CartState)
    (h : runActions initialCartState acts = .ok s) :
    (s.storeId = none ↔ s.items = []) ∧
    (∀ c ∈ s.items, (∃ n : ℤ, c.quantity = .num (n : ℚ) ∧ 1 ≤ n) ∨ c.quantity = .inf) ∧
    (∀ c ∈ s.items, (∃ q : ℚ, c.price = .num q ∧ 0 ≤ q) ∨ c.price = .inf) ∧
    (s.items.map CartItem.productId).Nodup := by
  obtain ⟨h1, h2, h3⟩ := cartWF_runActions acts initialCartState s cartWF_initial h
  exact ⟨h1, fun c hc => (h2 c hc).2.2, fun c hc => (h2 c hc).2.1, h3⟩

theorem C1_amended_cart_invariant_witness :
    (stateA.storeId = none ↔ stateA.items = []) ∧
    (∀ c ∈ stateA.items, (∃ n : ℤ, c.quantity = .num (n : ℚ) ∧ 1 ≤ n) ∨ c.quantity = .inf) ∧
    (∀ c ∈ stateA.items, (∃ q : ℚ, c.price = .num q ∧ 0 ≤ q) ∨ c.price = .inf) ∧
    (stateA.items.map CartItem.productId).Nodup :=
  C1_amended_cart_invariant
    [.addItem (some (rawOf "milk" "Milk" 30)) (.vstr "storeA")] stateA
    (by simp +decide [runActions, cartReducer, validateAdd, asValidStr, asValidPrice,
          addItemValid, addSameStore, rawOf, initialCartState, stateA, milkItem])

/-- C2: adding a valid item carrying a store id different from the cart's
current (non-null) store id replaces the whole cart with exactly that single
item at quantity 1 — the previous items are discarded, not merged. -/
theorem C2_store_switch_replaces (s : CartState) (storeX pid nm storeY : String) (pr : ℚ)
    (hs : s.storeId = some storeX) (hpid : pid ≠ "") (hnm : nm ≠ "") (hpr : 0 ≤ pr)
    (hY : storeY ≠ "") (hne : storeY ≠ storeX) :
    cartReducer s (.addItem (some (rawOf pid nm pr)) (.vstr storeY)) =
      .ok { storeId := some storeY,
            items := [{ productId := pid, name := nm, price := .num pr, quantity := .num 1 }] } := by
  rw [cartReducer_addItem_valid s pid nm storeY pr hpid hnm hpr hY]
  simp only [addItemValid, hs]
  rw [if_pos (Ne.symm hne)]

theorem C2_store_switch_replaces_witness :
    cartReducer stateA (.addItem (some (rawOf "soap" "Soap" 10)) (.vstr "storeB")) =
      .ok { storeId := some "storeB",
            items := [{ productId := "soap", name := "Soap", price := .num 10, quantity := .num 1 }] } :=
  C2_store_switch_replaces stateA "storeA" "soap" "Soap" "storeB" 10
    rfl (by decide) (by decide) (by norm_num) (by decide) (by decide)

/-- C3 (counterexample): the exact "+1" increment claim fails at the double
precision cliff.  After the reachable state with quantity `2^53` (one
accepted `UPDATE_QUANTITY` payload), a same-product `ADD_ITEM` computes
`2^53 + 1` in doubles, which rounds back to `2^53` (ties to even): the
stored quantity is unchanged, yet `2^53 ≠ 2^53 + 1`. -/
theorem C3_precision_cliff_counterexample :
    runActions initialCartState
        [.addItem (some (rawOf "milk" "Milk" 1)) (.vstr "storeA"),
         .updateQuantity (.vstr "milk") (.vnum (.num ((2 : ℚ) ^ (53 : ℕ)))),
         .addItem (some (rawOf "milk" "Milk" 1)) (.vstr "storeA")] =
      .ok { storeId := some "storeA",
            items := [{ productId := "milk", name := "Milk", price := .num 1,
                        quantity := .num ((2 : ℚ) ^ (53 : ℕ)) }] } ∧
    (2 : ℚ) ^ (53 : ℕ) ≠ (2 : ℚ) ^ (53 : ℕ) + 1 := by
  constructor
  · have hstep1 : cartReducer initialCartState
        (.addItem (some (rawOf "milk" "Milk" 1)) (.vstr "storeA")) =
        .ok { storeId := some "storeA",
              items := [{ productId := "milk", name := "Milk", price := .num 1,
                          quantity := .num 1 }] } := by
      rw [cartReducer_addItem_valid _ _ _ _ _ (by decide) (by decide) (by norm_num) (by decide),
          addItemValid_same _ _ _ _ _ (Or.inl rfl),
          addSameStore_append _ _ _ _ _ (by simp [initialCartState])]
      simp [initialCartState]
    have hfl : JNum.floor (.num ((2 : ℚ) ^ (53 : ℕ))) = .num ((2 : ℚ) ^ (53 : ℕ)) := by
      rw [show ((2 : ℚ) ^ (53 : ℕ)) = (((2 ^ 53 : ℤ)) : ℚ) by norm_num]
      simp only [JNum.floor, Int.floor_intCast]
    have hstep2 : cartReducer
        { storeId := some "storeA",
          items := [{ productId := "milk", name := "Milk", price := .num 1,
                      quantity := .num 1 }] }
        (.updateQuantity (.vstr "milk") (.vnum (.num ((2 : ℚ) ^ (53 : ℕ))))) =
        .ok { storeId := some "storeA",
              items := [{ productId := "milk", name := "Milk", price := .num 1,
                          quantity := .num ((2 : ℚ) ^ (53 : ℕ)) }] } := by
      have hnum : asValidNum (.vnum (.num ((2 : ℚ) ^ (53 : ℕ)))) =
          some (.num ((2 : ℚ) ^ (53 : ℕ))) := rfl
      simp only [cartReducer, asValidStr_of_ne "milk" (by decide), hnum,
        updateQuantityValid, hfl]
      rw [if_neg (by
        simp only [JNum.le0, decide_eq_true_eq]
        norm_num)]
      rw [if_pos (by simp)]
      simp +decide [setFirstQty]
    have hadd : (JNum.num ((2 : ℚ) ^ (53 : ℕ))).add (.num 1) = .num ((2 : ℚ) ^ (53 : ℕ)) := by
      simp only [JNum.add]
      exact roundD_tie_two_pow_53
    have hstep3 : cartReducer
        { storeId := some "storeA",
          items := [{ productId := "milk", name := "Milk", price := .num 1,
                      quantity := .num ((2 : ℚ) ^ (53 : ℕ)) }] }
        (.addItem (some (rawOf "milk" "Milk" 1)) (.vstr "storeA")) =
        .ok { storeId := some "storeA",
              items := [{ productId := "milk", name := "Milk", price := .num 1,
                          quantity := .num ((2 : ℚ) ^ (53 : ℕ)) }] } := by
      rw [cartReducer_addItem_valid _ _ _ _ _ (by decide) (by decide) (by norm_num) (by decide),
          addItemValid_same _ _ _ _ _ (Or.inr rfl),
          addSameStore_merge _ _ _ _ _ [] []
            { productId := "milk", name := "Milk", price := .num 1,
              quantity := .num ((2 : ℚ) ^ (53 : ℕ)) }
            rfl rfl (by simp)]
      simp [hadd]
    simp only [runActions, hstep1, hstep2, hstep3]
  · exact ne_of_lt (lt_add_one _)

/-- C3 (amended): adding the same valid item N times from the empty state
yields a single entry of quantity N for every `1 ≤ N ≤ 2^53` (beyond `2^53`
the double increment stops being exact); in general, on a same-store (or
empty) cart an add of an already-present product id bumps the first matching
entry's quantity in place by a JavaScript `+ 1` — which is an exact `+1`
whenever the quantity is an integer `< 2^53` — and an absent product id is
appended at quantity 1. -/
theorem C3_amended_merge_and_append (s : CartState) (pid nm sid : String) (pr : ℚ)
    (hpid : pid ≠ "") (hnm : nm ≠ "") (hpr : 0 ≤ pr) (hsid : sid ≠ "")
    (hsame : s.storeId = none ∨ s.storeId = some sid) :
    (∀ N : ℕ, 1 ≤ N → N ≤ 2 ^ 53 →
      runActions initialCartState
          (List.replicate N (.addItem (some (rawOf pid nm pr)) (.vstr sid))) =
        .ok { storeId := some sid,
              items := [{ productId := pid, name := nm, price := .num pr,
                          quantity := .num ((N : ℤ) : ℚ) }] }) ∧
    (∀ pre old post, s.items = pre ++ old :: post → old.productId = pid →
      (∀ c ∈ pre, c.productId ≠ pid) →
      cartReducer s (.addItem (some (rawOf pid nm pr)) (.vstr sid)) =
        .ok { storeId := some (s.storeId.getD sid),
              items := pre ++ { old with quantity := old.quantity.add (.num 1) } :: post } ∧
      (∀ n : ℤ, old.quantity = .num (n : ℚ) → 1 ≤ n → n < 2 ^ 53 →
        old.quantity.add (.num 1) = .num ((n + 1 : ℤ) : ℚ))) ∧
    ((∀ c ∈ s.items, c.productId ≠ pid) →
      cartReducer s (.addItem (some (rawOf pid nm pr)) (.vstr sid)) =
        .ok { storeId := some (s.storeId.getD sid),
              items := s.items ++
                [{ productId := pid, name := nm, price := .num pr, quantity := .num 1 }] }) := by
  refine ⟨?_, ?_, ?_⟩
  · intro N hN hN2
    obtain ⟨n, rfl⟩ : ∃ n, N = n + 1 := ⟨N - 1, by omega⟩
    rw [List.replicate_succ]
    have hfirst := cartReducer_addItem_valid initialCartState pid nm sid pr hpid hnm hpr hsid
    rw [addItemValid_same _ _ _ _ _ (Or.inl rfl),
        addSameStore_append _ _ _ _ _ (by simp [initialCartState])] at hfirst
    simp only [initialCartState, Option.getD_none, List.nil_append] at hfirst
    simp only [runActions, initialCartState, hfirst]
    have hrest := runActions_replicate_add pid nm sid pr hpid hnm hpr hsid n 1
      (by omega) (by omega)
    simp only [Int.cast_one] at hrest
    rw [hrest]
    congr 4
    push_cast
    ring_nf
  · intro pre old post hitems hold hpre
    constructor
    · rw [cartReducer_addItem_valid s pid nm sid pr hpid hnm hpr hsid,
          addItemValid_same _ _ _ _ _ hsame,
          addSameStore_merge _ _ _ _ _ pre post old hitems hold hpre]
    · intro n hn hn1 hn2
      rw [hn]
      simp only [JNum.add]
      rw [show ((n : ℚ) + 1) = (((n + 1 : ℤ)) : ℚ) by push_cast; ring]
      exact roundD_int_small (n + 1) (by omega) (by omega)
  · intro habs
    rw [cartReducer_addItem_valid s pid nm sid pr hpid hnm hpr hsid,
        addItemValid_same _ _ _ _ _ hsame,
        addSameStore_append _ _ _ _ _ habs]

theorem C3_amended_merge_and_append_witness :
    runActions initialCartState
        (List.replicate 2 (.addItem (some (rawOf "milk" "Milk" 30)) (.vstr "storeA"))) =
      .ok { storeId := some "storeA",
            items := [{ productId := "milk", name := "Milk", price := .num 30,
                        quantity := .num (((2 : ℕ) : ℤ) : ℚ) }] } :=
  (C3_amended_merge_and_append initialCartState "milk" "Milk" "storeA" 30
    (by decide) (by decide) (by norm_num) (by decide) (Or.inl rfl)).1 2
    (by norm_num) (by norm_num)

/-- C4: for every state, a valid product id and a numeric quantity whose
floor is ≤ 0, `UPDATE_QUANTITY` returns exactly the same result as
`REMOVE_ITEM` on that product id, including the empty-cart reset rule. -/
theorem C4_update_nonpos_is_remove (s : CartState) (pid : String) (q : ℚ)
    (hpid : pid ≠ "") (hq : Int.floor q ≤ 0) :
    cartReducer s (.updateQuantity (.vstr pid) (.vnum (.num q))) =
      cartReducer s (.removeItem (.vstr pid)) := by
  have hnum : asValidNum (.vnum (.num q)) = some (.num q) := rfl
  simp only [cartReducer, asValidStr_of_ne pid hpid, hnum]
  simp only [updateQuantityValid]
  rw [if_pos (by
    simp only [JNum.floor, JNum.le0, decide_eq_true_eq]
    exact_mod_cast hq)]

theorem C4_update_nonpos_is_remove_witness :
    cartReducer stateA (.updateQuantity (.vstr "milk") (.vnum (.num (-5)))) =
      cartReducer stateA (.removeItem (.vstr "milk")) :=
  C4_update_nonpos_is_remove stateA "milk" (-5) (by decide) (by norm_num)

/-- C5: removing the product id of the single remaining item returns exactly
the initial empty state, and whenever a removal leaves the cart non-empty
the store id is unchanged. -/
theorem C5_remove_last_resets (s : CartState) (c : CartItem) (pid : String) :
    (s.items = [c] → c.productId ≠ "" →
      cartReducer s (.removeItem (.vstr c.productId)) = .ok initialCartState) ∧
    (∀ s', cartReducer s (.removeItem (.vstr pid)) = .ok s' → s'.items ≠ [] →
      s'.storeId = s.storeId) := by
  constructor
  · intro hitems hne
    simp only [cartReducer, asValidStr_of_ne _ hne]
    simp [removeById, hitems]
  · intro s' h hne
    rcases hv : asValidStr (.vstr pid) with _ | p
    · simp only [cartReducer, hv, Except.ok.injEq] at h
      rw [← h]
    · simp only [cartReducer, hv, Except.ok.injEq] at h
      subst h
      simp only [removeById]
      split
      next hfe =>
        exact absurd (by simp [removeById, hfe, initialCartState]) hne
      next hfe =>
        rfl

theorem C5_remove_last_resets_witness :
    cartReducer stateA (.removeItem (.vstr milkItem.productId)) = .ok initialCartState :=
  (C5_remove_last_resets stateA milkItem "milk").1 rfl (by decide)

/-- C6 (counterexample): the claimed "Total is always a finite number"
fails: two validation-accepted items of price `2^1023` (finite doubles)
give exact sum `2^1024`, which overflows double addition — the reachable
cart's Total is `+Infinity`, not a finite number. -/
theorem C6_overflow_counterexample :
    runActions initialCartState
        [.addItem (some (rawOf "a" "A" ((2 : ℚ) ^ (1023 : ℕ)))) (.vstr "s"),
         .addItem (some (rawOf "b" "B" ((2 : ℚ) ^ (1023 : ℕ)))) (.vstr "s")] =
      .ok { storeId := some "s",
            items := [{ productId := "a", name := "A",
                        price := .num ((2 : ℚ) ^ (1023 : ℕ)), quantity := .num 1 },
                      { productId := "b", name := "B",
                        price := .num ((2 : ℚ) ^ (1023 : ℕ)), quantity := .num 1 }] } ∧
    totalPrice
        [{ productId := "a", name := "A",
           price := .num ((2 : ℚ) ^ (1023 : ℕ)), quantity := .num 1 },
         { productId := "b", name := "B",
           price := .num ((2 : ℚ) ^ (1023 : ℕ)), quantity := .num 1 }] = .inf := by
  constructor
  · have h1 : cartReducer initialCartState
        (.addItem (some (rawOf "a" "A" ((2 : ℚ) ^ (1023 : ℕ)))) (.vstr "s")) =
        .ok { storeId := some "s",
              items := [{ productId := "a", name := "A",
                          price := .num ((2 : ℚ) ^ (1023 : ℕ)), quantity := .num 1 }] } := by
      rw [cartReducer_addItem_valid _ _ _ _ _ (by decide) (by decide) (by positivity) (by decide),
          addItemValid_same _ _ _ _ _ (Or.inl rfl),
          addSameStore_append _ _ _ _ _ (by simp [initialCartState])]
      simp [initialCartState]
    have h2 : cartReducer
        { storeId := some "s",
          items := [{ productId := "a", name := "A",
                      price := .num ((2 : ℚ) ^ (1023 : ℕ)), quantity := .num 1 }] }
        (.addItem (some (rawOf "b" "B" ((2 : ℚ) ^ (1023 : ℕ)))) (.vstr "s")) =
        .ok { storeId := some "s",
              items := [{ productId := "a", name := "A",
                          price := .num ((2 : ℚ) ^ (1023 : ℕ)), quantity := .num 1 },
                        { productId := "b", name := "B",
                          price := .num ((2 : ℚ) ^ (1023 : ℕ)), quantity := .num 1 }] } := by
      rw [cartReducer_addItem_valid _ _ _ _ _ (by decide) (by decide) (by positivity) (by decide),
          addItemValid_same _ _ _ _ _ (Or.inr rfl),
          addSameStore_append _ _ _ _ _ (by
            intro c hc
            simp only [List.mem_singleton] at hc
            subst hc
            decide)]
      simp
    simp only [runActions, h1, h2]
  · have hc : itemContribution
        { productId := "a", name := "A",
          price := .num ((2 : ℚ) ^ (1023 : ℕ)), quantity := .num 1 } =
        .num ((2 : ℚ) ^ (1023 : ℕ)) := by
      simp only [itemContribution]
      rw [if_pos (by rfl : ((1 : ℚ)).den = 1)]
      simp only [JNum.mul, mul_one]
      exact roundD_two_pow 1023 (by norm_num)
    have hc' : itemContribution
        { productId := "b", name := "B",
          price := .num ((2 : ℚ) ^ (1023 : ℕ)), quantity := .num 1 } =
        .num ((2 : ℚ) ^ (1023 : ℕ)) := by
      simp only [itemContribution]
      rw [if_pos (by rfl : ((1 : ℚ)).den = 1)]
      simp only [JNum.mul, mul_one]
      exact roundD_two_pow 1023 (by norm_num)
    have hadd1 : (JNum.num 0).add (.num ((2 : ℚ) ^ (1023 : ℕ))) =
        .num ((2 : ℚ) ^ (1023 : ℕ)) := by
      simp only [JNum.add, zero_add]
      exact roundD_two_pow 1023 (by norm_num)
    have hadd2 : (JNum.num ((2 : ℚ) ^ (1023 : ℕ))).add (.num ((2 : ℚ) ^ (1023 : ℕ))) =
        .inf := by
      simp only [JNum.add]
      rw [show ((2 : ℚ) ^ (1023 : ℕ) + (2 : ℚ) ^ (1023 : ℕ)) = (2 : ℚ) ^ (1024 : ℕ) by
        rw [show (1024 : ℕ) = 1023 + 1 from rfl, pow_succ]
        ring]
      exact roundD_two_pow_1024
    simp only [totalPrice, List.foldl_cons, List.foldl_nil, hc, hc', hadd1, hadd2]

/-- C6 (amended): the derived Total is the JavaScript-semantics fold of the
guarded `price × quantity` contributions (invalid price or non-integer
quantity contributes 0); on any cart satisfying the data-model invariant
whose prices are all finite, Total is a non-negative number or `+Infinity`
(finiteness can be lost to double overflow); and on the cart
`{price:30,qty:2},{price:25,qty:1}` it is 85. -/
theorem C6_amended_total_price (s : CartState) (h : cartWF s)
    (hfin : ∀ c ∈ s.items, ∃ p : ℚ, c.price = .num p ∧ 0 ≤ p) :
    totalPrice s.items = (s.items.map itemContribution).foldl JNum.add (.num 0) ∧
    ((∃ t : ℚ, totalPrice s.items = .num t ∧ 0 ≤ t) ∨ totalPrice s.items = .inf) ∧
    totalPrice [{ productId := "a", name := "A", price := .num 30, quantity := .num 2 },
                { productId := "b", name := "B", price := .num 25, quantity := .num 1 }] =
      .num 85 := by
  refine ⟨?_, ?_, ?_⟩
  · rw [List.foldl_map]
    rfl
  · exact totalPrice_nonnegOrInf_aux s.items (.num 0) (Or.inl ⟨0, rfl, le_refl 0⟩)
      (fun c hc => itemContribution_nonnegOrInf c (hfin c hc) ((h.2.1 c hc).2.2))
  · have hca : itemContribution
        { productId := "a", name := "A", price := .num 30, quantity := .num 2 } =
        .num 60 := by
      simp only [itemContribution]
      rw [if_pos (by rfl : ((2 : ℚ)).den = 1)]
      simp only [JNum.mul]
      rw [show ((30 : ℚ) * 2) = (((60 : ℤ)) : ℚ) by norm_num]
      rw [roundD_int_small 60 (by norm_num) (by norm_num)]
      norm_num
    have hcb : itemContribution
        { productId := "b", name := "B", price := .num 25, quantity := .num 1 } =
        .num 25 := by
      simp only [itemContribution]
      rw [if_pos (by rfl : ((1 : ℚ)).den = 1)]
      simp only [JNum.mul]
      rw [show ((25 : ℚ) * 1) = (((25 : ℤ)) : ℚ) by norm_num]
      rw [roundD_int_small 25 (by norm_num) (by norm_num)]
      norm_num
    have h1 : (JNum.num 0).add (.num 60) = .num 60 := by
      simp only [JNum.add, zero_add]
      rw [show ((60 : ℚ)) = (((60 : ℤ)) : ℚ) by norm_num]
      rw [roundD_int_small 60 (by norm_num) (by norm_num)]
    have h2 : (JNum.num 60).add (.num 25) = .num 85 := by
      simp only [JNum.add]
      rw [show ((60 : ℚ) + 25) = (((85 : ℤ)) : ℚ) by norm_num]
      rw [roundD_int_small 85 (by norm_num) (by norm_num)]
      norm_num
    simp only [totalPrice, List.foldl_cons, List.foldl_nil, hca, hcb, h1, h2]

theorem C6_amended_total_price_witness :
    (totalPrice stateA.items = (stateA.items.map itemContribution).foldl JNum.add (.num 0)) ∧
    ((∃ t : ℚ, totalPrice stateA.items = .num t ∧ 0 ≤ t) ∨ totalPrice stateA.items = .inf) ∧
    totalPrice [{ productId := "a", name := "A", price := .num 30, quantity := .num 2 },
                { productId := "b", name := "B", price := .num 25, quantity := .num 1 }] =
      .num 85 :=
  C6_amended_total_price stateA cartWF_stateA (by
    intro c hc
    simp only [stateA, List.mem_singleton] at hc
    subst hc
    exact ⟨30, rfl, by norm_num⟩)

/-- C7: for every state and malformed `ADD_ITEM`, `REMOVE_ITEM` or
`UPDATE_QUANTITY` payload, the reducer returns the current state unchanged
as a normal (`.ok`) result — no exception crosses the boundary. -/
theorem C7_malformed_payload_noop (s : CartState) (r : Option RawItem)
    (sid pv pv2 qv : JVal) :
    (addMalformed r sid → cartReducer s (.addItem r sid) = .ok s) ∧
    (asValidStr pv = none → cartReducer s (.removeItem pv) = .ok s) ∧
    ((asValidStr pv2 = none ∨ asValidNum qv = none) →
      cartReducer s (.updateQuantity pv2 qv) = .ok s) := by
  refine ⟨?_, ?_, ?_⟩
  · intro hm
    cases r with
    | none => rfl
    | some item =>
      simp only [addMalformed] at hm
      simp only [cartReducer, validateAdd_eq_none item sid hm]
  · intro hm
    simp only [cartReducer, hm]
  · intro hm
    rcases h1 : asValidStr pv2 with _ | p
    · rcases h2 : asValidNum qv with _ | q <;> simp only [cartReducer, h1, h2]
    · rcases h2 : asValidNum qv with _ | q
      · simp only [cartReducer, h1, h2]
      · rcases hm with hm | hm
        · rw [h1] at hm
          exact absurd hm (by simp)
        · rw [h2] at hm
          exact absurd hm (by simp)

theorem C7_malformed_payload_noop_witness :
    (cartReducer stateA
        (.addItem (some { productId := .vstr "", name := .vstr "X", price := .vnum (.num 5) })
          (.vstr "storeA")) = .ok stateA) ∧
    (cartReducer stateA (.removeItem .other) = .ok stateA) ∧
    (cartReducer stateA (.updateQuantity (.vstr "milk") (.vnum .nan)) = .ok stateA) := by
  obtain ⟨h1, h2, h3⟩ := C7_malformed_payload_noop stateA
    (some { productId := .vstr "", name := .vstr "X", price := .vnum (.num 5) })
    (.vstr "storeA") .other (.vstr "milk") (.vnum .nan)
  exact ⟨h1 (Or.inl (by simp [asValidStr])), h2 (by simp [asValidStr]),
         h3 (Or.inr (by simp [asValidNum]))⟩

/-- C8: for every state, an action whose type tag is outside the defined set
reaches the reducer's `default` branch and fails loudly with an error (a
thrown exception), never silently returning the state. -/
theorem C8_unknown_action_fails (s : CartState) (tag : String) :
    cartReducer s (.unknown tag) =
      .error ("[CartContext] Unhandled action type: " ++ tag) := rfl

/-- C9: on a non-empty cart, removing or positively re-quantifying a
well-formed product id that occurs in no item leaves the state unchanged. -/
theorem C9_absent_id_noop (s : CartState) (pid : String) (q : ℤ)
    (hne : s.items ≠ []) (hpid : pid ≠ "") (habs : ∀ c ∈ s.items, c.productId ≠ pid)
    (hq : 1 ≤ q) :
    cartReducer s (.removeItem (.vstr pid)) = .ok s ∧
    cartReducer s (.updateQuantity (.vstr pid) (.vnum (.num (q : ℚ)))) = .ok s := by
  have hfilter : s.items.filter (fun c => c.productId != pid) = s.items :=
    List.filter_eq_self.mpr (fun c hc => by simpa using habs c hc)
  constructor
  · simp only [cartReducer, asValidStr_of_ne pid hpid]
    simp only [removeById, hfilter]
    rw [if_neg hne]
  · have hnum : asValidNum (.vnum (.num (q : ℚ))) = some (.num (q : ℚ)) := rfl
    simp only [cartReducer, asValidStr_of_ne pid hpid, hnum]
    simp only [updateQuantityValid]
    rw [if_neg (by
      simp only [JNum.floor, JNum.le0, Int.floor_intCast, decide_eq_true_eq]
      push_neg
      exact_mod_cast (by omega : (0 : ℤ) < q))]
    rw [any_pid_of_not_mem pid s.items habs]
    simp

theorem C9_absent_id_noop_witness :
    cartReducer stateA (.removeItem (.vstr "soap")) = .ok stateA ∧
    cartReducer stateA (.updateQuantity (.vstr "soap") (.vnum (.num ((3 : ℤ) : ℚ)))) = .ok stateA :=
  C9_absent_id_noop stateA "soap" 3 (by simp [stateA]) (by decide)
    (by
      intro c hc
      simp only [stateA, List.mem_singleton] at hc
      subst hc
      decide)
    (by norm_num)

/-- C10: when `ADD_ITEM` merges into an existing entry with the same product
id on a same-store (or empty-store) cart, the merged entry keeps the
existing entry's name and price — even when the incoming payload carries a
different name or price — only its quantity is bumped by the JavaScript
`+ 1`, and all other items (before and after it) are untouched. -/
theorem C10_merge_preserves_fields (s : CartState) (pre post : List CartItem)
    (old : CartItem) (nm sid : String) (pr : ℚ)
    (hitems : s.items = pre ++ old :: post)
    (hpre : ∀ c ∈ pre, c.productId ≠ old.productId)
    (hpid : old.productId ≠ "") (hnm : nm ≠ "") (hpr : 0 ≤ pr) (hsid : sid ≠ "")
    (hsame : s.storeId = none ∨ s.storeId = some sid) :
    ∃ merged : CartItem,
      cartReducer s (.addItem (some (rawOf old.productId nm pr)) (.vstr sid)) =
        .ok { storeId := some (s.storeId.getD sid), items := pre ++ merged :: post } ∧
      merged.productId = old.productId ∧
      merged.name = old.name ∧
      merged.price = old.price ∧
      merged.quantity = old.quantity.add (.num 1) := by
  refine ⟨{ old with quantity := old.quantity.add (.num 1) }, ?_, rfl, rfl, rfl, rfl⟩
  rw [cartReducer_addItem_valid s old.productId nm sid pr hpid hnm hpr hsid,
      addItemValid_same _ _ _ _ _ hsame,
      addSameStore_merge _ _ _ _ _ pre post old hitems rfl hpre]

theorem C10_merge_preserves_fields_witness :
    ∃ merged : CartItem,
      cartReducer stateA (.addItem (some (rawOf milkItem.productId "Cream" 99)) (.vstr "storeA")) =
        .ok { storeId := some (stateA.storeId.getD "storeA"), items := [] ++ merged :: [] } ∧
      merged.productId = milkItem.productId ∧
      merged.name = milkItem.name ∧
      merged.price = milkItem.price ∧
      merged.quantity = milkItem.quantity.add (.num 1) :=
  C10_merge_preserves_fields stateA [] [] milkItem "Cream" "storeA" 99
    (by simp [stateA]) (by simp) (by decide) (by decide) (by norm_num) (by decide)
    (Or.inr rfl)

end DilliDash
